import Mathlib

/-
Verification development for the HyperCache core.

Shallow embedding of the C++ sources:
  * `hyperhash`  — src/lib/hyperhash/hyperhash.hpp   (32-bit hash combiner)
  * `hypermap`   — src/src/lib/hypermap/hypermap.hpp (open-addressing slot map)
  * `datachunk`  — src/src/lib/datachunk/datachunk.hpp (value variants)

Machine integers are modelled as `Nat` with explicit reduction modulo
2^8, 2^16, 2^32 or 2^64 exactly where the C++ types wrap.
-/

set_option maxRecDepth 8192

namespace HyperCache

namespace hyperhash

/-- Magic constant c1 copied from Murmur3 (hyperhash.hpp line 16). -/
def c1 : Nat := 0xcc9e2d51

/-- Magic constant c2 copied from Murmur3 (hyperhash.hpp line 17). -/
def c2 : Nat := 0x1b873593

/-- Rotate32 from hyperhash.hpp lines 19-22:
`shift == 0 ? val : ((val >> shift) | (val << (32 - shift)))` on `uint32_t`.
The left shift wraps modulo 2^32; note that this is a rotation to the
RIGHT by `shift` bit positions. -/
def Rotate32 (val shift : Nat) : Nat :=
  if shift = 0 then val else (val >>> shift) ||| ((val <<< (32 - shift)) % 2 ^ 32)

/-- Mur from hyperhash.hpp lines 40-48, the Murmur3 combiner:
`a *= c1; a = Rotate32(a, 17); a *= c2; h ^= a; h = Rotate32(h, 19);
return h * 5 + 0xe6546b64;` with all arithmetic on `uint32_t`. -/
def Mur (a h : Nat) : Nat :=
  let a1 := (a * c1) % 2 ^ 32
  let a2 := Rotate32 a1 17
  let a3 := (a2 * c2) % 2 ^ 32
  let h1 := h ^^^ a3
  let h2 := Rotate32 h1 19
  (h2 * 5 + 0xe6546b64) % 2 ^ 32

/-- Modelled from the spec: the 32-bit LEFT rotation, `rotl`, as the spec's
combiner formula uses it ("rotl the 32-bit left rotation"). -/
def rotl32 (x s : Nat) : Nat :=
  ((x <<< s) % 2 ^ 32) ||| (x >>> (32 - s))

/-- Modelled from the spec: the combiner exactly as claim C9 states it,
`rotl(h ^ (rotl(a*c1, 17)*c2), 19)*5 + 0xe6546b64` with `rotl` a left
rotation, in 32-bit modular arithmetic. -/
def specMurLeft (a h : Nat) : Nat :=
  ((rotl32 (h ^^^ ((rotl32 ((a * c1) % 2 ^ 32) 17) * c2) % 2 ^ 32) 19) * 5
    + 0xe6546b64) % 2 ^ 32

end hyperhash

namespace datachunk

/-- Capacity of the quick field, `numeric_limits<uint8_t>::max()` = 255
(datachunk.hpp line 236). -/
def quick_cap : Nat := 255

/-- ProtoChunk from datachunk.hpp lines 192-245.  `quick_bytes` is a fixed
255-byte inline array of which only the first `quick_size` bytes are ever
written or read; it is modelled by the list of exactly those meaningful
bytes.  Bytes are `Nat` values below 256. -/
structure ProtoChunk where
  quick_mode : Bool := true
  quick_size : Nat := 0
  quick_bytes : List Nat := []
  bulk_bytes : List Nat := []
deriving DecidableEq

/-- set_proto from datachunk.hpp lines 208-232.  The C++ signature is
`set_proto(uint8_t* new_bytes, uint8_t size)`: a caller passing a byte
sequence `b` passes its length through the `uint8_t` parameter, which
truncates it modulo 256.  `memcpy`/`assign` then copy the first `size`
bytes of the caller's buffer. -/
def set_proto (c : ProtoChunk) (new_bytes : List Nat) : ProtoChunk :=
  let size := new_bytes.length % 256
  if size < quick_cap then
    { c with quick_mode := true, quick_size := size,
             quick_bytes := new_bytes.take size }
  else
    { c with quick_mode := false, bulk_bytes := new_bytes.take size }

/-- get_proto from datachunk.hpp lines 201-206: returns
`(quick_bytes, quick_size)` in quick mode and
`(bulk_bytes.data(), bulk_bytes.size())` otherwise, the length again as
a `uint8_t`.  Modelled as the byte sequence the returned pointer/length
pair describes. -/
def get_proto (c : ProtoChunk) : List Nat :=
  if c.quick_mode then c.quick_bytes.take c.quick_size
  else c.bulk_bytes.take (c.bulk_bytes.length % 256)

/-- CountChunk from datachunk.hpp lines 255-277: a `uint64_t` counter. -/
structure CountChunk where
  count : Nat := 0
deriving DecidableEq

/-- get_count from datachunk.hpp lines 264-266. -/
def get_count (c : CountChunk) : Nat := c.count

/-- set_count from datachunk.hpp lines 267-270: `count = new_count` where
the parameter is a `uint64_t` (a caller-supplied value reduced mod 2^64). -/
def set_count (c : CountChunk) (new_count : Nat) : CountChunk :=
  { c with count := new_count % 2 ^ 64 }

/-- inc_count from datachunk.hpp lines 271-274: `count += inc_count` with
`count : uint64_t` and `inc_count : int64_t`; the signed delta is
converted to `uint64_t` by two's-complement wrap and the sum wraps
modulo 2^64. -/
def inc_count (c : CountChunk) (d : Int) : CountChunk :=
  { c with count := (c.count + (d % ((2 ^ 64 : Nat) : Int)).toNat) % 2 ^ 64 }

end datachunk

namespace hypermap

/-- HyperSlot from hypermap.hpp lines 52-94.  `atom_id` is the
`atomic<uint_fast16_t>` generation counter, `key` the primary identifier
("" = unoccupied) and `val` the inlined variant value.  The two
`shared_mutex` fields and the unused TTL fields (`time_point`,
`time_duration`) carry no sequentially observable state and are omitted. -/
structure HyperSlot (V : Type) where
  atom_id : Nat := 0
  key : String := ""
  val : V
deriving DecidableEq

/-- Default-constructed HyperSlot: `atom_id = 0`, `key = ""` and a
default-constructed value (the first variant alternative). -/
def emptySlot (V : Type) [Inhabited V] : HyperSlot V :=
  { atom_id := 0, key := "", val := default }

/-- SlotOperator from hypermap.hpp lines 105-153.  The raw slot pointer is
modelled by the slot's index into the map array; `operator_id` is the
`atom_id` captured at construction (line 110). -/
structure SlotOperator where
  slot_idx : Nat
  operator_id : Nat
deriving DecidableEq

/-- Quadratic probing constant c1 (hypermap.hpp line 384). -/
def c1 : Nat := 1

/-- Quadratic probing constant c2 (hypermap.hpp line 385). -/
def c2 : Nat := 3

/-- Index probed on attempt `a`:
`idx = (hash + c1 * att + c2 * (att * att)) & (size - 1)`
(hypermap.hpp line 402). -/
def probeIdx (hash a size : Nat) : Nat :=
  (hash + c1 * a + c2 * (a * a)) &&& (size - 1)

variable {V : Type} [Inhabited V]

/-- Loop of HyperMap::probe (hypermap.hpp lines 399-407), examining the
slot at `idx` with attempt counter `att`:

`while (slot->key!="" && slot->key!=key) { idx = (hash + c1*att + c2*(att*att)) & (size-1); slot = &map[idx]; if (++att>size) return nullptr; }`

The first component is the loop's outcome (`some idx` = the slot where the
loop exits, `none` = the `++att > size` give-up), the second counts how
many slots the loop condition examines.  `fuel` makes the recursion
structural; `probe` passes `size + 1`, which can never be exhausted before
the source's own `att > size` cut fires (the loop only recurses while
`att + 1 ≤ size`, and fuel stays at least `size + 1 - att`). -/
def probeGo (hash : Nat) (key : String) (size : Nat) (map : List (HyperSlot V)) :
    Nat → Nat → Nat → Option Nat × Nat
  | idx, _, 0 =>
    let slot := map.getD idx (emptySlot V)
    if slot.key ≠ "" ∧ slot.key ≠ key then (none, 1) else (some idx, 1)
  | idx, att, fuel + 1 =>
    let slot := map.getD idx (emptySlot V)
    if slot.key ≠ "" ∧ slot.key ≠ key then
      if att + 1 > size then (none, 1)
      else
        let r := probeGo hash key size map (probeIdx hash att size) (att + 1) fuel
        (r.1, r.2 + 1)
    else (some idx, 1)

/-- HyperMap::probe (hypermap.hpp lines 388-408): computes
`hash = hyperhash::hash(key)`, the initial index `hash & (size - 1)`,
starts with `att = 0` and runs the loop.  The hash function itself is a
separate component (hyperhash.hpp) and is passed in as `hashFn`.  NOTE:
the source's probe lacks a `return slot;` after the loop (falling off the
end of a non-void function); it is modelled as returning the slot at which
the loop exits, exactly as the three identical inline probe loops in
src/lib/hypermap/hypermap.hpp do. -/
def probe (hashFn : String → Nat) (key : String) (size : Nat)
    (map : List (HyperSlot V)) : Option Nat :=
  (probeGo (hashFn key) key size map (hashFn key &&& (size - 1)) 0 (size + 1)).1

/-- Number of slot examinations the probe loop performs for this call
(second component of the same run as `probe`). -/
def probeSteps (hashFn : String → Nat) (key : String) (size : Nat)
    (map : List (HyperSlot V)) : Nat :=
  (probeGo (hashFn key) key size map (hashFn key &&& (size - 1)) 0 (size + 1)).2

/-- The loop-exit condition at slot `i`: the probe loop stops exactly at a
slot whose key is empty or equal to the probed key. -/
def matchAt (map : List (HyperSlot V)) (key : String) (i : Nat) : Prop :=
  (map.getD i (emptySlot V)).key = "" ∨ (map.getD i (emptySlot V)).key = key

instance matchAtDec (map : List (HyperSlot V)) (key : String) (i : Nat) :
    Decidable (matchAt map key i) := by
  unfold matchAt
  infer_instance

/-- HyperMap from hypermap.hpp lines 200-413: fixed `size`, `occupied`
counter (`uint16_t`, kept reduced modulo 2^16) and the contiguous slot
array. -/
structure HyperMap (V : Type) where
  size : Nat
  occupied : Nat
  map : List (HyperSlot V)
deriving DecidableEq

/-- HyperMap constructor (hypermap.hpp lines 203-211):
`HyperMap(uint16_t mapsize)` throws `invalid_argument` unless
`mapsize > 0 && (mapsize & (mapsize-1)) == 0`, else allocates `mapsize`
default slots.  The `uint16_t` parameter truncates the caller's capacity
modulo 2^16.  The thrown error is modelled as `none`. -/
def construct (V : Type) [Inhabited V] (mapsize : Nat) : Option (HyperMap V) :=
  if 0 < mapsize % 65536 ∧ (mapsize % 65536) &&& (mapsize % 65536 - 1) = 0 then
    some { size := mapsize % 65536, occupied := 0,
           map := List.replicate (mapsize % 65536) (emptySlot V) }
  else none

/-- SlotOperator construction (hypermap.hpp lines 108-111): binds the slot
pointer and captures `operator_id = slot_ptr->atom_id`. -/
def mkSlotOperator (map : List (HyperSlot V)) (idx : Nat) : SlotOperator :=
  { slot_idx := idx, operator_id := (map.getD idx (emptySlot V)).atom_id }

/-- SlotOperator::read (hypermap.hpp lines 121-130): returns `false`
(modelled `none`) when `slot_ptr->atom_id != operator_id`; otherwise takes
the shared lock, hands the callback a pointer to the slot's value and
returns `true`.  A successful call is modelled as `some v` where `v` is
the value the callback's pointer refers to.  (The source locks
`*slot_ptr->lock`, a member that does not exist on HyperSlot — the
declared locks are `val_lock`/`meta_lock`; locks are no-ops in this
sequential model.) -/
def SlotOperator.read (m : HyperMap V) (op : SlotOperator) : Option V :=
  if (m.map.getD op.slot_idx (emptySlot V)).atom_id ≠ op.operator_id then none
  else some (m.map.getD op.slot_idx (emptySlot V)).val

/-- SlotOperator::write (hypermap.hpp lines 140-149): as `read` but with
the unique lock and a mutable pointer; the callback's mutation is the
function applied to the slot's value.  (The source compares
`slot_ptr->id`, a member that does not exist — the declared generation
field is `atom_id`; modelled as the `atom_id` check.) -/
def SlotOperator.write (m : HyperMap V) (op : SlotOperator) (callback : V → V) :
    Option (HyperMap V) :=
  if (m.map.getD op.slot_idx (emptySlot V)).atom_id ≠ op.operator_id then none
  else
    let slot := m.map.getD op.slot_idx (emptySlot V)
    some { m with map := m.map.set op.slot_idx { slot with val := callback slot.val } }

/-- HyperMap::load (hypermap.hpp lines 332-334): returns `occupied`. -/
def load (m : HyperMap V) : Nat := m.occupied

/-- HyperMap::get (hypermap.hpp lines 341-343): probes and wraps the
result in a SlotOperator.  When probe gives up it returns `nullptr` and
the SlotOperator constructor would dereference it (`slot_ptr->atom_id`);
modelled as `none`. -/
def get (hashFn : String → Nat) (m : HyperMap V) (key : String) :
    Option SlotOperator :=
  (probe hashFn key m.size m.map).map (mkSlotOperator m.map)

/-- HyperMap::set (hypermap.hpp lines 350-363): probes, then under the
slot's write lock assigns `slot->key = key; slot->val = val;`, then runs
`occupied += slot->key == "" ? 1 : 0;` — reading the key it has just
written — and returns a SlotOperator on the slot.  `occupied` is
`uint16_t`, so the update is reduced modulo 2^16.  When probe gives up the
source dereferences the null slot pointer; modelled as `none`. -/
def set (hashFn : String → Nat) (m : HyperMap V) (key : String) (val : V) :
    Option (HyperMap V × SlotOperator) :=
  match probe hashFn key m.size m.map with
  | none => none
  | some idx =>
    let slot := m.map.getD idx (emptySlot V)
    let slot' := { slot with key := key, val := val }
    let map' := m.map.set idx slot'
    let occ' := (m.occupied + if slot'.key = "" then 1 else 0) % 65536
    some ({ m with map := map', occupied := occ' }, mkSlotOperator map' idx)

/-- HyperMap::del (hypermap.hpp lines 368-380): probes; returns early only
when probe gave up (`if (!slot) return;`); otherwise — whether or not the
probed slot's key equals `key` — resets `slot->key = ""`, reinitializes
the value (the source assigns a default `HyperSlot` to `slot->val`, which
does not type-check; the documented intent, a default-initialized value,
is modelled) and decrements the `uint16_t` `occupied`. -/
def del (hashFn : String → Nat) (m : HyperMap V) (key : String) : HyperMap V :=
  match probe hashFn key m.size m.map with
  | none => m
  | some idx =>
    let slot := m.map.getD idx (emptySlot V)
    let slot' := { slot with key := "", val := (default : V) }
    { m with map := m.map.set idx slot', occupied := (m.occupied + 65535) % 65536 }

/-- Concrete capacity-2 table of `Nat`-valued slots (as produced by
`construct Nat 2`), used as the evaluation table for concrete runs. -/
def table2 : HyperMap Nat :=
  { size := 2, occupied := 0, map := List.replicate 2 (emptySlot Nat) }

/-- Concrete capacity-4 table whose slots 0 and 2 hold keys "b" and "c"
and whose slots 1 and 3 are free. -/
def table4 : HyperMap Nat :=
  { size := 4, occupied := 2,
    map := [{ atom_id := 0, key := "b", val := 0 }, emptySlot Nat,
            { atom_id := 0, key := "c", val := 0 }, emptySlot Nat] }

/-- Hash function for concrete runs: every key hashes to 0 (the table
claims hold for every hash function; the hash itself is component A). -/
def hash0 : String → Nat := fun _ => 0

end hypermap

end HyperCache

namespace HyperCache

open hypermap

theorem getD_set_self {α : Type} (l : List α) (i : Nat) (a d : α)
    (h : i < l.length) : (l.set i a).getD i d = a := by
  simp [List.getD_eq_getElem?_getD, List.getElem?_set_self h]

theorem getD_set_ne {α : Type} (l : List α) (i j : Nat) (a d : α)
    (h : i ≠ j) : (l.set i a).getD j d = l.getD j d := by
  simp [List.getD_eq_getElem?_getD, List.getElem?_set_ne h]

theorem probeGo_snd_le {V : Type} [Inhabited V] (hash : Nat) (key : String)
    (size : Nat) (map : List (HyperSlot V)) :
    ∀ fuel idx att, att ≤ size →
      (probeGo hash key size map idx att fuel).2 ≤ size + 1 - att := by
  intro fuel
  induction fuel with
  | zero =>
    intro idx att hatt
    rw [probeGo]
    split
    · omega
    · omega
  | succ f ih =>
    intro idx att hatt
    rw [probeGo]
    split
    · split
      · omega
      · have h2 := ih (probeIdx hash att size) (att + 1) (by omega)
        simp only
        omega
    · omega

/-- C10: the probe loop shared by `get`, `set` and `del` always terminates
(it is a total function) and examines at most `size + 1` slots before
either exiting at a matching-or-empty slot or giving up through the
`++att > size` cut. -/
theorem probe_examines_at_most_size_succ (V : Type) [Inhabited V]
    (hashFn : String → Nat) (key : String) (size : Nat)
    (map : List (HyperSlot V)) :
    probeSteps hashFn key size map ≤ size + 1 := by
  have h := probeGo_snd_le (hashFn key) key size map (size + 1)
    (hashFn key &&& (size - 1)) 0 (Nat.zero_le _)
  simpa [probeSteps] using h

theorem probeGo_fst_of_match {V : Type} [Inhabited V] (hash : Nat)
    (key : String) (size : Nat) (map : List (HyperSlot V)) :
    ∀ fuel idx att, size ≤ fuel + att →
      (matchAt map key idx ∨
        ∃ a, att ≤ a ∧ a < size ∧ matchAt map key (probeIdx hash a size)) →
      ∃ p, (probeGo hash key size map idx att fuel).1 = some p ∧
        matchAt map key p := by
  intro fuel
  induction fuel with
  | zero =>
    intro idx att hfuel hm
    rcases hm with hm | ⟨a, ha1, ha2, _⟩
    · refine ⟨idx, ?_, hm⟩
      rw [probeGo]
      rw [if_neg (by rw [not_and_or, not_not, not_not]; exact hm)]
    · omega
  | succ f ih =>
    intro idx att hfuel hm
    by_cases hidx : matchAt map key idx
    · refine ⟨idx, ?_, hidx⟩
      rw [probeGo]
      rw [if_neg (by rw [not_and_or, not_not, not_not]; exact hidx)]
    · rcases hm with hm | ⟨a, ha1, ha2, ha3⟩
      · exact absurd hm hidx
      · have hcond : (map.getD idx (emptySlot V)).key ≠ "" ∧
            (map.getD idx (emptySlot V)).key ≠ key := by
          rw [matchAt, not_or] at hidx
          exact hidx
        have hnocut : ¬ att + 1 > size := by omega
        have hrec : ∃ p,
            (probeGo hash key size map (probeIdx hash att size) (att + 1) f).1 =
              some p ∧ matchAt map key p := by
          apply ih
          · omega
          · rcases Nat.eq_or_lt_of_le ha1 with rfl | hlt
            · exact Or.inl ha3
            · exact Or.inr ⟨a, by omega, ha2, ha3⟩
        obtain ⟨p, hp1, hp2⟩ := hrec
        refine ⟨p, ?_, hp2⟩
        rw [probeGo, if_pos hcond, if_neg hnocut]
        simpa using hp1

theorem probeGo_fst_lt {V : Type} [Inhabited V] (hash : Nat) (key : String)
    (size : Nat) (map : List (HyperSlot V)) (hsize : 0 < size) :
    ∀ fuel idx att p, idx < size →
      (probeGo hash key size map idx att fuel).1 = some p → p < size := by
  intro fuel
  induction fuel with
  | zero =>
    intro idx att p hidx h
    rw [probeGo] at h
    split at h
    · simp at h
    · simp only [Prod.fst] at h
      injection h with h
      omega
  | succ f ih =>
    intro idx att p hidx h
    rw [probeGo] at h
    split at h
    · split at h
      · simp at h
      · refine ih _ _ _ ?_ h
        have : probeIdx hash att size ≤ size - 1 := Nat.and_le_right
        omega
    · simp only [Prod.fst] at h
      injection h with h
      omega

theorem probeGo_fst_set {V : Type} [Inhabited V] (hash : Nat) (key : String)
    (size : Nat) (map : List (HyperSlot V)) (p : Nat)
    (slotNew : HyperSlot V) (hkey : slotNew.key = key) (hp : p < map.length) :
    ∀ fuel idx att, (probeGo hash key size map idx att fuel).1 = some p →
      (probeGo hash key size (map.set p slotNew) idx att fuel).1 = some p := by
  intro fuel
  induction fuel with
  | zero =>
    intro idx att h
    rw [probeGo] at h
    split at h
    · simp at h
    · simp only [Prod.fst] at h
      injection h with h
      subst h
      rw [probeGo]
      simp [List.getElem?_set_self hp, hkey]
  | succ f ih =>
    intro idx att h
    rw [probeGo] at h
    split at h
    · split at h
      · simp at h
      · by_cases hip : idx = p
        · subst hip
          rw [probeGo]
          simp [List.getElem?_set_self hp, hkey]
        · have h' : (probeGo hash key size map (probeIdx hash att size)
              (att + 1) f).1 = some p := by simpa using h
          rw [probeGo]
          rename_i hc hcut
          rw [if_pos (by rwa [getD_set_ne _ _ _ _ _ (fun he => hip he.symm)]),
            if_neg hcut]
          simpa using ih _ _ h'
    · simp only [Prod.fst] at h
      injection h with h
      subst h
      rw [probeGo]
      simp [List.getElem?_set_self hp, hkey]

/-- C9 counterexample: with `rotl` read as a genuine left rotation, the
spec's one-line combiner formula disagrees with the source's `Mur` already
at `a = 0`, `h = 1`, because the source's `Rotate32` rotates to the right. -/
theorem mur_left_rotation_cex :
    hyperhash.Mur 0 1 ≠ hyperhash.specMurLeft 0 1 := by decide

/-- C9 amended: `Mur(a, h)` equals
`rotl(h ^ (rotl(a*c1, 15)*c2), 13)*5 + 0xe6546b64` in 32-bit modular
arithmetic — the source's `Rotate32(·, s)` is a rotation to the right by
`s`, i.e. a left rotation by `32 - s`, so the left-rotation amounts are
15 and 13 rather than 17 and 19. -/
theorem mur_eq_left_rotation_15_13 (a h : Nat) :
    hyperhash.Mur a h =
      ((hyperhash.rotl32
          (h ^^^ ((hyperhash.rotl32 ((a * hyperhash.c1) % 2 ^ 32) 15) *
            hyperhash.c2) % 2 ^ 32) 13) * 5 + 0xe6546b64) % 2 ^ 32 := by
  simp only [hyperhash.Mur, hyperhash.Rotate32, hyperhash.rotl32]
  norm_num [Nat.lor_comm]

/-- C6 counterexample: the `uint8_t` size parameter of `set_proto` makes the
claim false.  Writing a 256-byte sequence truncates the size to 0, so the
round trip returns the empty sequence; and a 255-byte sequence is stored in
the out-of-line buffer, not inline, because the quick path requires
`size < 255` strictly. -/
theorem proto_roundtrip_cex :
    datachunk.get_proto
        (datachunk.set_proto {} (List.replicate 256 7)) ≠ List.replicate 256 7 ∧
      (datachunk.set_proto {} (List.replicate 255 7)).quick_mode = false := by
  constructor
  · decide
  · decide

/-- C6 amended: the BLOB round trip holds only for byte sequences of length
at most 255 (the size parameter is `uint8_t`, so longer payloads are
truncated modulo 256); lengths strictly below 255 are stored inline and a
length of exactly 255 goes to the out-of-line buffer. -/
theorem proto_roundtrip_le_255 (c : datachunk.ProtoChunk) (b : List Nat)
    (hb : b.length ≤ 255) :
    datachunk.get_proto (datachunk.set_proto c b) = b ∧
      (datachunk.set_proto c b).quick_mode = decide (b.length < 255) := by
  have hlt : b.length < 256 := Nat.lt_succ_of_le hb
  have hmod : b.length % 256 = b.length := Nat.mod_eq_of_lt hlt
  rcases Nat.lt_or_ge b.length 255 with hq | hq
  · simp [datachunk.set_proto, datachunk.get_proto, datachunk.quick_cap,
      hmod, hq, List.take_take, List.take_length]
  · have h255 : b.length = 255 := Nat.le_antisymm hb hq
    have htake : List.take 255 b = b := h255 ▸ List.take_length b
    simp [datachunk.set_proto, datachunk.get_proto, datachunk.quick_cap,
      hmod, h255, htake, List.take_take]

/-- C6 witness for the amended round-trip theorem, at the 3-byte sequence
`[1, 2, 3]` written into a fresh chunk. -/
theorem proto_roundtrip_le_255_witness :
    ([1, 2, 3] : List Nat).length ≤ 255 ∧
      (datachunk.get_proto (datachunk.set_proto {} [1, 2, 3]) = [1, 2, 3] ∧
        (datachunk.set_proto ({} : datachunk.ProtoChunk) [1, 2, 3]).quick_mode =
          decide (([1, 2, 3] : List Nat).length < 255)) :=
  ⟨by decide, proto_roundtrip_le_255 {} [1, 2, 3] (by decide)⟩

/-- C7: COUNT arithmetic wraps modulo 2^64.  Setting the counter to
2^64 - 1 and incrementing by 1 yields 0; setting it to 0 and incrementing
by -1 yields 2^64 - 1; and in general `inc_count(d)` stores
`(old + d) mod 2^64`, the signed delta applying via two's-complement wrap. -/
theorem count_wrap_mod_2_64 (c c' : datachunk.CountChunk) (d : Int) :
    datachunk.get_count
        (datachunk.inc_count (datachunk.set_count c (2 ^ 64 - 1)) 1) = 0 ∧
      datachunk.get_count
        (datachunk.inc_count (datachunk.set_count c 0) (-1)) = 2 ^ 64 - 1 ∧
      datachunk.get_count (datachunk.inc_count c' d) =
        ((((datachunk.get_count c' : Int) + d) % ((2 ^ 64 : Nat) : Int))).toNat := by
  have hpn : ((2 : Nat) ^ 64) = 18446744073709551616 := by norm_num
  refine ⟨?_, ?_, ?_⟩
  · rw [datachunk.get_count]
    simp only [datachunk.inc_count, datachunk.set_count]
    norm_num
  · rw [datachunk.get_count]
    simp only [datachunk.inc_count, datachunk.set_count]
    norm_num [Int.emod_def]
    rfl
  · rw [datachunk.get_count, datachunk.get_count]
    simp only [datachunk.inc_count, hpn]
    push_cast
    omega


/-- C4 counterexample: a capacity-4 table holding keys "b" and "c" at the
probe-sequence indices of a key hashing to 0 makes `set` of the fresh key
"a" fail (probe gives up after its `att > size` cut) even though slots 1
and 3 are free: the sequence `(hash + a + 3a^2) mod 4` only ever visits
indices 0 and 2. -/
theorem set_reports_full_despite_free_slot_cex :
    set hash0 table4 "a" (7 : Nat) = none ∧
      (table4.map.getD 1 (emptySlot Nat)).key = "" := by
  constructor
  · decide
  · decide

/-- C4 amended: `set` for key K succeeds within the at most N+1 examined
slots if and only if some index of the probe sequence
`i_a = (hash(K) + a + 3a^2) mod N`, `a < N`, holds K or is empty; the
sequence need not cover the table, so the operation can report failure
(probe returns null) while free slots exist off the probe path. -/
theorem set_succeeds_of_match_on_path {V : Type} [Inhabited V]
    (hashFn : String → Nat) (m : HyperMap V) (key : String) (v : V)
    (hfree : ∃ a, a < m.size ∧
      matchAt m.map key (probeIdx (hashFn key) a m.size)) :
    ∃ p, probe hashFn key m.size m.map = some p ∧ matchAt m.map key p ∧
      (set hashFn m key v).isSome = true := by
  obtain ⟨p, hp, hm⟩ := probeGo_fst_of_match (hashFn key) key m.size m.map
    (m.size + 1) (hashFn key &&& (m.size - 1)) 0 (by omega)
    (Or.inr (by obtain ⟨a, ha, hma⟩ := hfree; exact ⟨a, Nat.zero_le _, ha, hma⟩))
  have hp' : probe hashFn key m.size m.map = some p := by
    rw [probe]; exact hp
  refine ⟨p, hp', hm, ?_⟩
  rw [hypermap.set, hp']
  rfl

/-- C4 witness for the amended theorem: on the empty capacity-2 table the
probe sequence for key "a" starts at a free slot, so `set` succeeds. -/
theorem set_succeeds_of_match_on_path_witness :
    (∃ a, a < table2.size ∧
        matchAt table2.map "a" (probeIdx (hash0 "a") a table2.size)) ∧
      (∃ p, probe hash0 "a" table2.size table2.map = some p ∧
        matchAt table2.map "a" p ∧ (set hash0 table2 "a" (9 : Nat)).isSome = true) :=
  ⟨⟨0, by decide, by decide⟩,
    set_succeeds_of_match_on_path hash0 table2 "a" 9 ⟨0, by decide, by decide⟩⟩

/-- C1: for a non-empty key K and a table whose probe path for K contains a
free (or K-holding) slot, `set(K, V)` succeeds and an immediately following
`get(K)` returns an operator whose `read` invokes the callback with a
pointer to a value equal to V (sequential run, no intervening writer). -/
theorem set_then_get_read_returns_value {V : Type} [Inhabited V]
    (hashFn : String → Nat) (m : HyperMap V) (key : String) (v : V)
    (_hkey : key ≠ "")
    (hlen : m.map.length = m.size)
    (hfree : ∃ a, a < m.size ∧
      matchAt m.map key (probeIdx (hashFn key) a m.size)) :
    ∃ m' op op', set hashFn m key v = some (m', op) ∧
      get hashFn m' key = some op' ∧ SlotOperator.read m' op' = some v := by
  obtain ⟨p, hp, _⟩ := probeGo_fst_of_match (hashFn key) key m.size m.map
    (m.size + 1) (hashFn key &&& (m.size - 1)) 0 (by omega)
    (Or.inr (by obtain ⟨a, ha, hma⟩ := hfree; exact ⟨a, Nat.zero_le _, ha, hma⟩))
  have hp' : probe hashFn key m.size m.map = some p := by
    rw [probe]; exact hp
  have hsize : 0 < m.size := by
    obtain ⟨a, ha, _⟩ := hfree; omega
  have hidx0 : hashFn key &&& (m.size - 1) < m.size := by
    have h := Nat.and_le_right (n := hashFn key) (m := m.size - 1)
    omega
  have hplen : p < m.map.length := by
    have := probeGo_fst_lt (hashFn key) key m.size m.map hsize
      (m.size + 1) _ 0 p hidx0 hp
    omega
  have hprobe2 : probe hashFn key m.size
      (m.map.set p { m.map.getD p (emptySlot V) with key := key, val := v }) =
        some p := by
    rw [probe]
    exact probeGo_fst_set (hashFn key) key m.size m.map p _ rfl hplen _ _ _ hp
  refine ⟨{ m with
      map := m.map.set p { m.map.getD p (emptySlot V) with key := key, val := v },
      occupied := (m.occupied + if key = "" then 1 else 0) % 65536 },
    mkSlotOperator
      (m.map.set p { m.map.getD p (emptySlot V) with key := key, val := v }) p,
    mkSlotOperator
      (m.map.set p { m.map.getD p (emptySlot V) with key := key, val := v }) p,
    ?_, ?_, ?_⟩
  · rw [hypermap.set, hp']
  · rw [hypermap.get]
    simp only
    rw [hprobe2]
    rfl
  · rw [SlotOperator.read]
    simp only [mkSlotOperator]
    rw [if_neg (by simp)]
    rw [getD_set_self _ _ _ _ hplen]

/-- C1 witness: inserting value 7 under key "a" into the empty capacity-2
table, then `get "a"` and `read`, yields 7. -/
theorem set_then_get_read_returns_value_witness :
    (("a" : String) ≠ "" ∧ table2.map.length = table2.size ∧
        (∃ a, a < table2.size ∧
          matchAt table2.map "a" (probeIdx (hash0 "a") a table2.size))) ∧
      (∃ m' op op', set hash0 table2 "a" (7 : Nat) = some (m', op) ∧
        get hash0 m' "a" = some op' ∧ SlotOperator.read m' op' = some 7) :=
  ⟨⟨by decide, by decide, ⟨0, by decide, by decide⟩⟩,
    set_then_get_read_returns_value hash0 table2 "a" 7 (by decide) (by decide)
      ⟨0, by decide, by decide⟩⟩


/-- C2 evaluation at the failing input: construct a capacity-2 table,
`set("a", 5)` (obtaining a SlotOperator), then `del("a")`.  The operator's
subsequent `read` still finds `atom_id = operator_id` — no operation in
the source ever increments a slot's `atom_id` — so it invokes the callback
on the reset (default) value and returns true (`some 0`) instead of the
claimed Invalidated (`none`). -/
theorem read_not_invalidated_after_del :
    (set hash0 table2 "a" (5 : Nat)).map
        (fun r => SlotOperator.read (del hash0 r.1 "a") r.2) = some (some 0) := by
  decide

/-- C3 evaluation at the failing input: inserting the single fresh key "a"
into the empty capacity-2 table leaves `load()` at 0, not 1 — `set`
increments `occupied` only when the key it has just written is empty,
because the `slot->key == ""` check runs after `slot->key = key;`. -/
theorem load_zero_after_first_insert :
    (set hash0 table2 "a" (5 : Nat)).map (fun r => load r.1) = some 0 := by
  decide

/-- C5 evaluation at the failing input: deleting the absent key "b" from
the fresh capacity-2 table changes the table — probe returns the first
empty slot, `del` only checks the pointer for null, resets that slot and
decrements the `uint16_t` `occupied`, which wraps from 0 to 65535. -/
theorem del_absent_key_wraps_occupied :
    load (del hash0 table2 "b") = 65535 := by
  decide

theorem land_pred_eq_zero_iff (n : Nat) (hn : 0 < n) :
    n &&& (n - 1) = 0 ↔ ∃ k, n = 2 ^ k := by
  constructor
  · intro h
    refine ⟨n.log2, ?_⟩
    by_contra hne
    have h1 : 2 ^ n.log2 ≤ n := Nat.log2_self_le hn.ne'
    have h2 : n < 2 ^ (n.log2 + 1) := Nat.lt_log2_self
    have h2' : n < 2 ^ n.log2 * 2 := by
      rw [← Nat.pow_succ]; exact h2
    have hb1 : n / 2 ^ n.log2 = 1 := Nat.div_eq_of_lt_le (by omega) (by omega)
    have hb2 : (n - 1) / 2 ^ n.log2 = 1 :=
      Nat.div_eq_of_lt_le (by omega) (by omega)
    have ht1 : n.testBit n.log2 = true := by
      rw [Nat.testBit_to_div_mod, hb1]
      rfl
    have ht2 : (n - 1).testBit n.log2 = true := by
      rw [Nat.testBit_to_div_mod, hb2]
      rfl
    have hland : (n &&& (n - 1)).testBit n.log2 = true := by
      rw [Nat.testBit_land, ht1, ht2]
      rfl
    rw [h, Nat.zero_testBit] at hland
    exact Bool.false_ne_true hland
  · rintro ⟨k, rfl⟩
    apply Nat.eq_of_testBit_eq
    intro i
    rw [Nat.testBit_land, Nat.zero_testBit, Nat.testBit_two_pow_sub_one]
    rcases Decidable.eq_or_ne k i with rfl | hki
    · simp
    · simp [Nat.testBit_two_pow_of_ne hki]

/-- C8 counterexample: `construct(1)` succeeds although the claim demands
BadCapacity outside [2, 2^16], and `construct(2^16)` fails although the
claim demands success — the `uint16_t` parameter truncates 65536 to 0. -/
theorem construct_capacity_cex :
    (construct Nat 1).isSome = true ∧ (construct Nat 65536).isSome = false := by
  decide

/-- C8 amended: `construct(N)` succeeds exactly when the `uint16_t` image
of N, `N mod 2^16`, is a power of two — i.e. one of 2^0 … 2^15; it
throws (BadCapacity) otherwise.  In particular `construct(1)` succeeds and
a capacity of 2^16 is not expressible. -/
theorem construct_isSome_iff_pow2_uint16 (V : Type) [Inhabited V] (mapsize : Nat) :
    (construct V mapsize).isSome = true ↔
      ∃ k, k < 16 ∧ mapsize % 65536 = 2 ^ k := by
  have hlt : mapsize % 65536 < 65536 := Nat.mod_lt _ (by norm_num)
  rw [construct]
  by_cases hc : 0 < mapsize % 65536 ∧
      (mapsize % 65536) &&& (mapsize % 65536 - 1) = 0
  · rw [if_pos hc]
    simp only [Option.isSome_some, true_iff]
    obtain ⟨k, hk⟩ := (land_pred_eq_zero_iff _ hc.1).1 hc.2
    refine ⟨k, ?_, hk⟩
    have hpow : (2 : Nat) ^ k < 2 ^ 16 := by
      rw [← hk]
      exact lt_of_lt_of_le hlt (by norm_num)
    exact (Nat.pow_lt_pow_iff_right (by norm_num)).1 hpow
  · rw [if_neg hc]
    simp only [Option.isSome_none, Bool.false_eq_true, false_iff]
    rintro ⟨k, _, hk⟩
    apply hc
    constructor
    · rw [hk]
      exact Nat.pos_pow_of_pos k (by norm_num)
    · rw [hk]
      exact (land_pred_eq_zero_iff _ (Nat.pos_pow_of_pos k (by norm_num))).2 ⟨k, rfl⟩

end HyperCache
